import Mathlib

/-!
# Verification of the keyword aggregation & ranking pipeline (`api/trends.js`)

This file gives a shallow embedding of the deterministic core of the trends
proxy: rank→grade mapping, tokenization, term normalization, score
accumulation, the interestKR pool guard, provider dispatch, the stale/degraded
fallback of the HTTP handler, the `q` filter, and feed-title parsing.

Conventions of the embedding:
* JavaScript numbers are modelled as `ℚ` (the pipeline only adds, multiplies
  and divides them) and results of `Math.round` as `ℤ`.
* JavaScript strings are modelled as `String`/`List Char`; `s.length` is the
  number of code points (the source strings stay within the BMP, where this
  agrees with JS UTF-16 lengths).
* The Unicode classes `\p{L}`/`\p{N}` of the source regexes are embedded
  restricted to ASCII letters/digits and Hangul syllables, the scripts this
  pipeline processes; the general theorems below do not depend on the class.
* `Math.random()` draws are passed in explicitly as parameters.
* The source file contains two generations of the handler: the mock-fallback
  version (referred to as v1) and the interestKR version (v2).  Definitions
  carry a `V1`/`V2` suffix where the two differ.
-/

namespace TrendsJs

/-! ## Character classes and JS-like string helpers -/

/-- JS `\s` (whitespace). -/
def isWS (c : Char) : Bool := c.isWhitespace

/-- The character class `[가-힣]` (Hangul syllables U+AC00..U+D7A3). -/
def isHangulSyllable (c : Char) : Bool := 0xAC00 ≤ c.toNat && c.toNat ≤ 0xD7A3

/-- The character class `[가-힣0-9]` used by the Hangul word regex. -/
def isHangulOrDigit (c : Char) : Bool := isHangulSyllable c || c.isDigit

/-- Embedding of `\p{L}\p{N}` (Unicode letter or number), restricted to the
scripts the pipeline processes: ASCII letters, ASCII digits, Hangul. -/
def isWordChar (c : Char) : Bool := c.isAlpha || c.isDigit || isHangulSyllable c

/-- Accumulator-based extraction of the maximal runs of characters satisfying
`p` (what a global regex match of `[p]+` returns). `cur` holds the current run
reversed. -/
def runsAux (p : Char → Bool) (cur : List Char) : List Char → List (List Char)
  | [] => if cur.isEmpty then [] else [cur.reverse]
  | c :: cs =>
    if p c then runsAux p (c :: cur) cs
    else if cur.isEmpty then runsAux p [] cs else cur.reverse :: runsAux p [] cs

/-- Maximal runs of characters satisfying `p`, in order. -/
def runsOf (p : Char → Bool) (l : List Char) : List (List Char) := runsAux p [] l

/-- JS `String.prototype.trim` at the character-list level. -/
def trimChars (l : List Char) : List Char :=
  ((l.dropWhile isWS).reverse.dropWhile isWS).reverse

/-- JS `.replace(/\s+/g, ' ')`: collapse every whitespace run to one space.
`pre` records whether the previous character was part of a whitespace run. -/
def collapseWSAux (pre : Bool) : List Char → List Char
  | [] => []
  | c :: cs =>
    if isWS c then
      if pre then collapseWSAux true cs else ' ' :: collapseWSAux true cs
    else c :: collapseWSAux false cs

/-- Collapse whitespace runs to single spaces. -/
def collapseWS (l : List Char) : List Char := collapseWSAux false l

/-- Keep the first occurrence of each element, dropping later duplicates
(the `seen`/`ordered` loop of `tokenizeOrdered`). -/
def dedupFirst (seen : List String) : List String → List String
  | [] => []
  | w :: ws =>
    if seen.contains w then dedupFirst seen ws
    else w :: dedupFirst (w :: seen) ws

/-- Does `pat` start the list `l`, comparing characters with `eqc`? -/
def startsWithBy (eqc : Char → Char → Bool) : List Char → List Char → Bool
  | [], _ => true
  | _ :: _, [] => false
  | p :: ps, c :: cs => eqc p c && startsWithBy eqc ps cs

/-- Index of the first occurrence of `pat` in `l` under `eqc`, if any. -/
def findSub (eqc : Char → Char → Bool) (pat : List Char) : List Char → Option ℕ
  | [] => if startsWithBy eqc pat [] then some 0 else none
  | c :: cs =>
    if startsWithBy eqc pat (c :: cs) then some 0
    else (findSub eqc pat cs).map (· + 1)

/-- Exact character equality. -/
def chEq (a b : Char) : Bool := a == b

/-- Case-insensitive character equality (the `i` regex flag; ASCII folding,
which is what the involved patterns need). -/
def chEqCI (a b : Char) : Bool := a.toLower == b.toLower

/-- JS `String.prototype.includes`. -/
def jsIncludes (s sub : String) : Bool := (findSub chEq sub.toList s.toList).isSome

/-- JS `s.toLowerCase()` (ASCII folding; Hangul is unaffected in both). -/
def jsToLower (s : String) : String := String.mk (s.toList.map Char.toLower)

/-- JS `.trim()` on a string. -/
def jsTrim (s : String) : String := String.mk (trimChars s.toList)

/-- Does the string contain the Unicode replacement character U+FFFD? -/
def hasFFFD (s : String) : Bool := s.toList.contains '�'

/-- JS `Math.round` on a rational: round half toward positive infinity. -/
def jsRound (q : ℚ) : ℤ := ⌊q + 1/2⌋

/-- `clampInt(n, min, max) = Math.min(max, Math.max(min, n))` from the source,
specialized to integer inputs (the only way the verified call sites use it). -/
def clampInt (x lo hi : ℤ) : ℤ := min hi (max lo x)

/-! ## Grade mapper

```js
function computeGradeByRank(rank, n) {
  if (n <= 1) return 100;
  const g = Math.round(100 - ((rank - 1) * 100) / (n - 1));
  return clampInt(g, 0, 100);
}
```
-/

def computeGradeByRank (rank n : ℕ) : ℤ :=
  if n ≤ 1 then 100
  else clampInt (jsRound (100 - ((rank : ℚ) - 1) * 100 / ((n : ℚ) - 1))) 0 100

/-! ## Display-only synthetic series

```js
function synthSeries(n, base) {
  const slope = (Math.random() - 0.5) * 0.9;
  const vol = 0.18 + Math.random() * 0.22;
  const out = [];
  for (let i = 0; i < n; i++) {
    const t = i / (n - 1 || 1);
    const v = base * (0.85 + 0.35 * t + slope * (t - 0.5)) * (1 + (Math.random() - 0.5) * vol);
    out.push(Math.max(0, Math.round(v)));
  }
  return out;
}
```
The three `Math.random()` draws are passed in as `rSlope`, `rVol` and
`rNoise i` (one per loop iteration). -/

/-- The divisor `(n - 1 || 1)` of the loop: `n - 1`, replaced by `1` when it
is `0`. -/
def synthDenom (n : ℕ) : ℚ := if (n : ℚ) - 1 = 0 then 1 else (n : ℚ) - 1

def synthSeries (n : ℕ) (base rSlope rVol : ℚ) (rNoise : ℕ → ℚ) : List ℤ :=
  let slope := (rSlope - 0.5) * 0.9
  let vol := 0.18 + rVol * 0.22
  (List.range n).map fun (i : ℕ) =>
    let t : ℚ := (i : ℚ) / synthDenom n
    let v := base * (0.85 + 0.35 * t + slope * (t - 0.5)) * (1 + (rNoise i - 0.5) * vol)
    max 0 (jsRound v)

/-! ## Helper lemmas -/

theorem jsRound_mono {q r : ℚ} (h : q ≤ r) : jsRound q ≤ jsRound r :=
  Int.floor_le_floor (add_le_add_right h _)

theorem clampInt_mono {x y lo hi : ℤ} (h : x ≤ y) : clampInt x lo hi ≤ clampInt y lo hi :=
  min_le_min le_rfl (max_le_max le_rfl h)

theorem jsRound_intCast (z : ℤ) : jsRound (z : ℚ) = z := by
  unfold jsRound
  rw [Int.floor_eq_iff]
  constructor
  · linarith
  · linarith

theorem jsRound_hundred : jsRound (100 : ℚ) = 100 := by
  have := jsRound_intCast 100
  exact_mod_cast this

theorem jsRound_zero : jsRound (0 : ℚ) = 0 := by
  have := jsRound_intCast 0
  exact_mod_cast this

/-! ## C1: grade formula and endpoint values -/

/-- **C1.** For every rank `r ≥ 1` and retained-set size `n`:
`computeGradeByRank(r, n)` is `round(100 - (r-1)*100/(n-1))` clamped to
`[0,100]` when `n > 1`, and `100` when `n ≤ 1`; in particular
`computeGradeByRank(1, n) = 100` and `computeGradeByRank(n, n) = 0` for
`n > 1`, and `computeGradeByRank(1, 1) = 100`. -/
theorem computeGradeByRank_formula (r n : ℕ) (_hr : 1 ≤ r) :
    (n ≤ 1 → computeGradeByRank r n = 100) ∧
    (1 < n → computeGradeByRank r n =
      min 100 (max 0 (jsRound (100 - ((r : ℚ) - 1) * 100 / ((n : ℚ) - 1))))) ∧
    (1 < n → computeGradeByRank 1 n = 100 ∧ computeGradeByRank n n = 0) ∧
    computeGradeByRank 1 1 = 100 := by
  refine ⟨fun h => by simp [computeGradeByRank, h], fun h => ?_, fun h => ⟨?_, ?_⟩, by
    simp [computeGradeByRank]⟩
  · simp [computeGradeByRank, Nat.not_le.mpr h, clampInt]
  · have hn : ¬ n ≤ 1 := Nat.not_le.mpr h
    simp only [computeGradeByRank, if_neg hn]
    have h100 : (100 : ℚ) - (((1 : ℕ) : ℚ) - 1) * 100 / ((n : ℚ) - 1) = 100 := by
      norm_num
    rw [h100, jsRound_hundred]
    simp [clampInt]
  · have hn : ¬ n ≤ 1 := Nat.not_le.mpr h
    have hden : ((n : ℚ) - 1) ≠ 0 := by
      have : (1 : ℚ) < (n : ℚ) := by exact_mod_cast h
      intro hc; linarith
    simp only [computeGradeByRank, if_neg hn]
    have h0 : (100 : ℚ) - ((n : ℚ) - 1) * 100 / ((n : ℚ) - 1) = 0 := by
      field_simp
    rw [h0, jsRound_zero]
    simp [clampInt]

/-- Witness for `computeGradeByRank_formula` at `r = 1`, `n = 20`. -/
theorem computeGradeByRank_formula_witness :
    1 ≤ 1 ∧
    ((20 ≤ 1 → computeGradeByRank 1 20 = 100) ∧
    (1 < 20 → computeGradeByRank 1 20 =
      min 100 (max 0 (jsRound (100 - ((1 : ℚ) - 1) * 100 / ((20 : ℚ) - 1))))) ∧
    (1 < 20 → computeGradeByRank 1 20 = 100 ∧ computeGradeByRank 20 20 = 0) ∧
    computeGradeByRank 1 1 = 100) := by
  refine ⟨le_rfl, ?_⟩
  have h := computeGradeByRank_formula 1 20 le_rfl
  simpa using h

/-! ## C7: grade is monotonically non-increasing in rank -/

/-- **C7.** For every retained-set size `N ≥ 1` and ranks `r1 < r2`,
`computeGradeByRank(r1, N) ≥ computeGradeByRank(r2, N)`. -/
theorem computeGradeByRank_antitone (n r₁ r₂ : ℕ) (_hn : 1 ≤ n) (h : r₁ < r₂) :
    computeGradeByRank r₂ n ≤ computeGradeByRank r₁ n := by
  by_cases hle : n ≤ 1
  · simp [computeGradeByRank, hle]
  · have hden : (0 : ℚ) < (n : ℚ) - 1 := by
      have : 1 < n := Nat.lt_of_not_le hle
      have : (1 : ℚ) < (n : ℚ) := by exact_mod_cast this
      linarith
    simp only [computeGradeByRank, if_neg hle]
    apply clampInt_mono
    apply jsRound_mono
    have hr : ((r₁ : ℚ) - 1) * 100 ≤ ((r₂ : ℚ) - 1) * 100 := by
      have : (r₁ : ℚ) ≤ (r₂ : ℚ) := by exact_mod_cast Nat.le_of_lt h
      nlinarith
    have := (div_le_div_iff_of_pos_right hden).mpr hr
    linarith

/-- Witness for `computeGradeByRank_antitone` at `n = 20`, `r₁ = 3`, `r₂ = 7`. -/
theorem computeGradeByRank_antitone_witness :
    1 ≤ 20 ∧ 3 < 7 ∧ computeGradeByRank 7 20 ≤ computeGradeByRank 3 20 :=
  ⟨by norm_num, by norm_num,
    computeGradeByRank_antitone 20 3 7 (by norm_num) (by norm_num)⟩

/-! ## C10: synthSeries length, non-negativity, guarded divisor -/

/-- **C10.** For every `n ≥ 1` and every numeric base (and any values of the
random draws), `synthSeries` returns exactly `n` values, each a non-negative
integer (rounded, clamped below at 0), and the normalization divisor
`(n - 1 || 1)` is positive — `n = 1` never divides by zero. -/
theorem synthSeries_spec (n : ℕ) (base rSlope rVol : ℚ) (rNoise : ℕ → ℚ)
    (hn : 1 ≤ n) :
    (synthSeries n base rSlope rVol rNoise).length = n ∧
    (∀ v ∈ synthSeries n base rSlope rVol rNoise, 0 ≤ v) ∧
    0 < synthDenom n := by
  refine ⟨by unfold synthSeries; rw [List.length_map, List.length_range], ?_, ?_⟩
  · intro v hv
    simp only [synthSeries, List.mem_map] at hv
    obtain ⟨i, -, rfl⟩ := hv
    exact le_max_left 0 _
  · unfold synthDenom
    by_cases h : (n : ℚ) - 1 = 0
    · simp [h]
    · rw [if_neg h]
      have h1 : n ≠ 1 := by
        intro hc; apply h; rw [hc]; norm_num
      have h2 : 2 ≤ n := by omega
      have : (2 : ℚ) ≤ (n : ℚ) := by exact_mod_cast h2
      linarith

/-- Witness for `synthSeries_spec` at `n = 24`, `base = 50`, zero draws. -/
theorem synthSeries_spec_witness :
    1 ≤ 24 ∧
    ((synthSeries 24 50 0 0 fun _ => 0).length = 24 ∧
    (∀ v ∈ synthSeries 24 50 0 0 fun _ => 0, 0 ≤ v) ∧
    0 < synthDenom 24) :=
  ⟨by norm_num, synthSeries_spec 24 50 0 0 (fun _ => 0) (by norm_num)⟩

/-! ## Tokenizer (`tokenizeOrdered`, v2 stop lists)

```js
function tokenizeOrdered(text, hl) {
  const s = String(text || '');
  const stop = buildStop(hl);
  const hangulWords = (s.match(/[가-힣0-9]+/g) || [])
    .map((x) => x.trim()).filter((x) => x.length >= 2);
  const latinWords = s.toLowerCase()
    .replace(/[^\p{L}\p{N}\s]+/gu, ' ').replace(/\s+/g, ' ').trim()
    .split(' ').filter(Boolean).filter((x) => x.length >= 2);
  const out = [];
  for (const w of hangulWords) { if (/^\d+$/.test(w)) continue; if (stop.has(w)) continue; out.push(w); }
  for (const w of latinWords)  { if (/^\d+$/.test(w)) continue; if (stop.has(w)) continue; out.push(w); }
  const seen = new Set(); const ordered = [];
  for (const w of out) { if (seen.has(w)) continue; seen.add(w); ordered.push(w); }
  return ordered;
}
```
-/

/-- English stop list of `buildStop` (v2). -/
def stopEN : List String :=
  ["the", "a", "an", "and", "or", "to", "of", "in", "on", "for", "with", "is", "are",
   "was", "were", "be", "from", "vs", "ver", "feat", "official", "mv", "teaser",
   "trailer", "full", "live", "episode", "ep", "part", "new", "update", "today",
   "breaking", "what", "why", "how", "when", "where", "who"]

/-- Korean stop list of `buildStop` (v2). -/
def stopKO : List String :=
  ["영상", "공식", "라이브", "뮤비", "예고", "티저", "하이라이트", "리뷰", "반응", "요약",
   "뉴스", "속보", "단독", "오늘", "지금", "최신", "화제", "사건", "사고", "인터뷰",
   "출연", "공개", "발표", "논란", "정리", "추측", "기자", "보도", "관련", "논의",
   "확인", "전문", "분석"]

/-- `buildStop(hl)`: the source ignores `hl` and always unions both lists. -/
def buildStop (_hl : String) : List String := stopEN ++ stopKO

/-- `/^\d+$/.test(w)`: non-empty and purely decimal digits. -/
def jsIsAllDigits (w : String) : Bool := !w.toList.isEmpty && w.toList.all Char.isDigit

/-- Hangul pass: `s.match(/[가-힣0-9]+/g).map(trim).filter(len ≥ 2)`. -/
def hangulWords (s : String) : List String :=
  ((runsOf isHangulOrDigit s.toList).map fun r => String.mk (trimChars r)).filter
    fun w => 2 ≤ w.length

/-- The per-character effect of `.replace(/[^\p{L}\p{N}\s]+/gu, ' ')`. -/
def latinSubst (c : Char) : Char := if isWordChar c || isWS c then c else ' '

/-- Latin pass: lowercase, substitute non letter/digit/space runs by spaces,
collapse/trim/split on whitespace, keep non-empty words of length ≥ 2.
Splitting the substituted text on whitespace is exactly taking its maximal
non-whitespace runs. -/
def latinWords (s : String) : List String :=
  ((runsOf (fun c => !isWS c) ((s.toList.map Char.toLower).map latinSubst)).map
      String.mk).filter fun w => 2 ≤ w.length

/-- The digit/stop filter applied to both passes of `tokenizeOrdered`. -/
def tokKeep (hl : String) (w : String) : Bool :=
  !jsIsAllDigits w && !(buildStop hl).contains w

def tokenizeOrdered (text hl : String) : List String :=
  dedupFirst []
    ((hangulWords text).filter (tokKeep hl) ++ (latinWords text).filter (tokKeep hl))

/-- Modelled from the spec's words "order of first appearance is preserved":
the same character classes and filters, but words are collected in one
left-to-right scan of the title, so tokens are ordered by their first
appearance in the title (not Hangul pass first). Used only to compare
against `tokenizeOrdered`. -/
def specTitleOrderTokens (text hl : String) : List String :=
  dedupFirst []
    ((((runsOf isWordChar (text.toList.map Char.toLower)).map String.mk).filter
        fun w => 2 ≤ w.length).filter (tokKeep hl))

/-! ### dedupFirst lemmas -/

theorem dedupFirst_sublist (seen : List String) (l : List String) :
    (dedupFirst seen l).Sublist l := by
  induction l generalizing seen with
  | nil => simp [dedupFirst]
  | cons w ws ih =>
    unfold dedupFirst
    by_cases h : seen.contains w
    · rw [if_pos h]
      exact (ih seen).trans (List.sublist_cons_self w ws)
    · rw [if_neg h]
      exact (ih (w :: seen)).cons₂ w

theorem mem_dedupFirst {seen l : List String} {w : String} :
    w ∈ dedupFirst seen l ↔ w ∈ l ∧ w ∉ seen := by
  induction l generalizing seen with
  | nil => simp [dedupFirst]
  | cons x xs ih =>
    unfold dedupFirst
    by_cases h : seen.contains x
    · rw [if_pos h]
      replace h : x ∈ seen := by simpa using h
      rw [ih]
      constructor
      · rintro ⟨h1, h2⟩; exact ⟨List.mem_cons_of_mem x h1, h2⟩
      · rintro ⟨h1, h2⟩
        rcases List.mem_cons.mp h1 with rfl | h1
        · exact absurd h h2
        · exact ⟨h1, h2⟩
    · rw [if_neg h]
      replace h : x ∉ seen := by simpa using h
      rw [List.mem_cons, ih]
      constructor
      · rintro (rfl | ⟨h1, h2⟩)
        · exact ⟨List.mem_cons_self w xs, h⟩
        · exact ⟨List.mem_cons_of_mem x h1,
            fun hc => h2 (List.mem_cons_of_mem x hc)⟩
      · rintro ⟨h1, h2⟩
        rcases List.mem_cons.mp h1 with rfl | h1
        · exact Or.inl rfl
        · by_cases hx : w = x
          · exact Or.inl hx
          · exact Or.inr ⟨h1, fun hc => (List.mem_cons.mp hc).elim hx h2⟩

theorem dedupFirst_nodup (seen : List String) (l : List String) :
    (dedupFirst seen l).Nodup := by
  induction l generalizing seen with
  | nil => simp [dedupFirst]
  | cons x xs ih =>
    unfold dedupFirst
    by_cases h : seen.contains x
    · rw [if_pos h]; exact ih seen
    · rw [if_neg h]
      refine List.nodup_cons.mpr ⟨fun hc => ?_, ih (x :: seen)⟩
      exact (mem_dedupFirst.mp hc).2 (List.mem_cons_self x seen)

/-! ### runs lemmas -/

theorem runsAux_chars (p : Char → Bool) (cur : List Char) (l : List Char)
    (hcur : ∀ c ∈ cur, p c = true) :
    ∀ r ∈ runsAux p cur l, ∀ c ∈ r, p c = true := by
  induction l generalizing cur with
  | nil =>
    intro r hr c hc
    unfold runsAux at hr
    by_cases h : cur.isEmpty
    · simp [h] at hr
    · simp [h] at hr
      subst hr
      exact hcur c (List.mem_reverse.mp hc)
  | cons x xs ih =>
    intro r hr c hc
    unfold runsAux at hr
    by_cases hx : p x
    · rw [if_pos hx] at hr
      exact ih (x :: cur) (by
        intro c' hc'
        rcases List.mem_cons.mp hc' with rfl | hc'
        · exact hx
        · exact hcur c' hc') r hr c hc
    · rw [if_neg hx] at hr
      by_cases hemp : cur.isEmpty
      · rw [if_pos hemp] at hr
        exact ih [] (by simp) r hr c hc
      · rw [if_neg hemp] at hr
        rcases List.mem_cons.mp hr with rfl | hr
        · exact hcur c (List.mem_reverse.mp hc)
        · exact ih [] (by simp) r hr c hc

theorem runsOf_chars (p : Char → Bool) (l : List Char) :
    ∀ r ∈ runsOf p l, ∀ c ∈ r, p c = true :=
  runsAux_chars p [] l (by simp)

theorem runsAux_mem (p : Char → Bool) (cur : List Char) (l : List Char) :
    ∀ r ∈ runsAux p cur l, ∀ c ∈ r, c ∈ cur ∨ c ∈ l := by
  induction l generalizing cur with
  | nil =>
    intro r hr c hc
    unfold runsAux at hr
    by_cases h : cur.isEmpty
    · simp [h] at hr
    · simp [h] at hr
      subst hr
      exact Or.inl (List.mem_reverse.mp hc)
  | cons x xs ih =>
    intro r hr c hc
    unfold runsAux at hr
    by_cases hx : p x
    · rw [if_pos hx] at hr
      rcases ih (x :: cur) r hr c hc with h | h
      · rcases List.mem_cons.mp h with rfl | h
        · exact Or.inr (List.mem_cons_self c xs)
        · exact Or.inl h
      · exact Or.inr (List.mem_cons_of_mem x h)
    · rw [if_neg hx] at hr
      by_cases hemp : cur.isEmpty
      · rw [if_pos hemp] at hr
        rcases ih [] r hr c hc with h | h
        · simp at h
        · exact Or.inr (List.mem_cons_of_mem x h)
      · rw [if_neg hemp] at hr
        rcases List.mem_cons.mp hr with rfl | hr
        · exact Or.inl (List.mem_reverse.mp hc)
        · rcases ih [] r hr c hc with h | h
          · simp at h
          · exact Or.inr (List.mem_cons_of_mem x h)

theorem runsOf_mem (p : Char → Bool) (l : List Char) :
    ∀ r ∈ runsOf p l, ∀ c ∈ r, c ∈ l := by
  intro r hr c hc
  rcases runsAux_mem p [] l r hr c hc with h | h
  · simp at h
  · exact h

theorem mem_trimChars {c : Char} {l : List Char} (h : c ∈ trimChars l) : c ∈ l := by
  unfold trimChars at h
  rw [List.mem_reverse] at h
  have h1 := (List.dropWhile_sublist (l := (l.dropWhile isWS).reverse) isWS).mem h
  rw [List.mem_reverse] at h1
  exact (List.dropWhile_sublist isWS).mem h1

/-! ### Token-level facts -/

theorem mem_hangulWords {w : String} {s : String} (h : w ∈ hangulWords s) :
    2 ≤ w.length ∧ ∀ c ∈ w.toList, isHangulOrDigit c = true := by
  unfold hangulWords at h
  obtain ⟨hmem, hlen⟩ := List.mem_filter.mp h
  refine ⟨by exact_mod_cast of_decide_eq_true hlen, ?_⟩
  obtain ⟨r, hr, rfl⟩ := List.mem_map.mp hmem
  intro c hc
  exact runsOf_chars isHangulOrDigit s.toList r hr c (mem_trimChars hc)

theorem mem_latinWords {w : String} {s : String} (h : w ∈ latinWords s) :
    2 ≤ w.length ∧ ∀ c ∈ w.toList, isWordChar c = true := by
  unfold latinWords at h
  obtain ⟨hmem, hlen⟩ := List.mem_filter.mp h
  refine ⟨by exact_mod_cast of_decide_eq_true hlen, ?_⟩
  obtain ⟨r, hr, rfl⟩ := List.mem_map.mp hmem
  intro c hc
  have hnw : (!isWS c) = true :=
    runsOf_chars _ ((s.toList.map Char.toLower).map latinSubst) r hr c hc
  -- characters of the substituted text that are not whitespace are word chars
  have hcs : c ∈ (s.toList.map Char.toLower).map latinSubst :=
    runsOf_mem _ ((s.toList.map Char.toLower).map latinSubst) r hr c hc
  obtain ⟨c₀, -, hc₀⟩ := List.mem_map.mp hcs
  unfold latinSubst at hc₀
  by_cases hw : isWordChar c₀ || isWS c₀
  · rw [if_pos hw] at hc₀
    subst hc₀
    rcases Bool.or_eq_true_iff.mp hw with h' | h'
    · exact h'
    · simp [h'] at hnw
  · rw [if_neg hw] at hc₀
    subst hc₀
    simp [isWS] at hnw

/-! ## C4: tokenizer guarantees -/

/-- Tokens of either pass always have length ≥ 2. -/
theorem tokenizeOrdered_mem_iff (text hl : String) (w : String) :
    w ∈ tokenizeOrdered text hl ↔
      (w ∈ hangulWords text ∨ w ∈ latinWords text) ∧ tokKeep hl w = true := by
  unfold tokenizeOrdered
  rw [mem_dedupFirst]
  simp only [List.mem_append, List.mem_filter, List.not_mem_nil, not_false_iff,
    and_true]
  tauto

/-- **C4 (amended).** `tokenizeOrdered` returns the Hangul-pass tokens
followed by the Latin-pass tokens, duplicates collapsed keeping the first
occurrence (so tokens are ordered by first appearance within that two-pass
stream, which coincides with title order only for single-script titles); the
result has no duplicates, no token shorter than 2 characters, no purely
numeric token and no stop-list token; a title all of whose extracted words
are stop words tokenizes to the empty list. -/
theorem tokenizeOrdered_spec (text hl : String) :
    (tokenizeOrdered text hl).Nodup ∧
    (tokenizeOrdered text hl).Sublist
      ((hangulWords text).filter (tokKeep hl) ++ (latinWords text).filter (tokKeep hl)) ∧
    (∀ w, w ∈ tokenizeOrdered text hl ↔
        (w ∈ hangulWords text ∨ w ∈ latinWords text) ∧ tokKeep hl w = true) ∧
    (∀ w ∈ tokenizeOrdered text hl,
        2 ≤ w.length ∧ jsIsAllDigits w = false ∧ w ∉ buildStop hl) ∧
    ((∀ w ∈ hangulWords text, w ∈ buildStop hl) →
      (∀ w ∈ latinWords text, w ∈ buildStop hl) →
      tokenizeOrdered text hl = []) := by
  refine ⟨dedupFirst_nodup _ _, dedupFirst_sublist _ _, tokenizeOrdered_mem_iff text hl,
    ?_, ?_⟩
  · intro w hw
    obtain ⟨hsrc, hkeep⟩ := (tokenizeOrdered_mem_iff text hl w).mp hw
    have hlen : 2 ≤ w.length := by
      rcases hsrc with h | h
      · exact (mem_hangulWords h).1
      · exact (mem_latinWords h).1
    unfold tokKeep at hkeep
    rw [Bool.and_eq_true] at hkeep
    refine ⟨hlen, by simpa using hkeep.1, ?_⟩
    have := hkeep.2
    simpa using this
  · intro hh hlat
    unfold tokenizeOrdered
    have h1 : (hangulWords text).filter (tokKeep hl) = [] := by
      rw [List.filter_eq_nil_iff]
      intro w hw
      have : (buildStop hl).contains w = true := by
        simpa using hh w hw
      simp [tokKeep, this]
      intro _
      simpa using this
    have h2 : (latinWords text).filter (tokKeep hl) = [] := by
      rw [List.filter_eq_nil_iff]
      intro w hw
      have : (buildStop hl).contains w = true := by
        simpa using hlat w hw
      simp [tokKeep, this]
      intro _
      simpa using this
    rw [h1, h2]
    rfl

/-- Witness for `tokenizeOrdered_spec`: a title composed entirely of stop
words ("영상 공식 the breaking") tokenizes to the empty list. -/
theorem tokenizeOrdered_spec_witness :
    tokenizeOrdered "영상 공식 the breaking" "ko" = [] :=
  (tokenizeOrdered_spec "영상 공식 the breaking" "ko").2.2.2.2
    (by decide) (by decide)

/-- **C4 (counterexample).** The claim's "tokens in order of first
appearance" fails on a mixed-script title: for "ab 가나" the tokenizer emits
the Hangul token first even though "ab" appears first in the title.
`specTitleOrderTokens` is the spec-faithful single-scan ordering. -/
theorem tokenizeOrdered_order_counterexample :
    tokenizeOrdered "ab 가나" "ko" = ["가나", "ab"] ∧
    specTitleOrderTokens "ab 가나" "ko" = ["ab", "가나"] ∧
    tokenizeOrdered "ab 가나" "ko" ≠ specTitleOrderTokens "ab 가나" "ko" :=
  ⟨by decide, by decide, by decide⟩

/-- No token produced by `tokenizeOrdered` contains U+FFFD: every token
character is a Hangul syllable, an ASCII letter or a digit. -/
theorem tokenizeOrdered_no_FFFD (text hl : String) :
    ∀ w ∈ tokenizeOrdered text hl, hasFFFD w = false := by
  intro w hw
  obtain ⟨hsrc, -⟩ := (tokenizeOrdered_mem_iff text hl w).mp hw
  rw [hasFFFD, Bool.eq_false_iff]
  intro hc
  replace hc : '�' ∈ w.toList := by simpa using hc
  rcases hsrc with h | h
  · have := (mem_hangulWords h).2 '�' hc
    simp [isHangulOrDigit, isHangulSyllable] at this
  · have := (mem_latinWords h).2 '�' hc
    simp [isWordChar, isHangulSyllable] at this

/-! ## Broken-text detection and term normalization (v2)

```js
function looksBroken(s) {
  const t = String(s || '');
  if (!t) return true;
  if (t.includes('�')) return true;
  if (/�/.test(t)) return true;
  const cleaned = t.replace(/[\p{L}\p{N}\s]/gu, '');
  if (cleaned.length >= Math.max(4, t.length * 0.45)) return true;
  return false;
}
```
The `includes('�')` and `/�/` tests are the same check and are folded
into one `hasFFFD` test.  The threshold comparison
`cleaned.length >= Math.max(4, t.length * 0.45)` is stated scaled by 20 so
it stays in exact natural-number arithmetic
(`cleaned ≥ max(4, 0.45·len)  ↔  20·cleaned ≥ max(80, 9·len)`). -/

def looksBroken (s : String) : Bool :=
  if s = "" then true
  else if hasFFFD s then true
  else
    let cleaned := s.toList.filter fun c => !(isWordChar c || isWS c)
    max 80 (9 * s.length) ≤ 20 * cleaned.length

/-- The bracket class `[\[\]{}()<>【】]` of `normalizeTerm` (each occurrence
is replaced by a space). -/
def bracketChars : List Char :=
  ['[', ']', Char.ofNat 0x7b, Char.ofNat 0x7d, '(', ')', '<', '>', '【', '】']

/-- `t.replace(/\s*\-\s*$/g, '')`: drop one trailing hyphen together with the
whitespace around it, if the string ends that way. -/
def stripTrailingDash (l : List Char) : List Char :=
  match l.reverse.dropWhile isWS with
  | '-' :: rest => (rest.dropWhile isWS).reverse
  | _ => l

/--
```js
function normalizeTerm(term) {
  let t = String(term || '').trim();
  t = t.replace(/\s+/g, ' ');
  t = t.replace(/[\[\]{}()<>【】]/g, ' ');
  t = t.replace(/\s+/g, ' ').trim();
  t = t.replace(/\s*\-\s*$/g, '');
  if (t.length < 2) return '';
  if (looksBroken(t)) return '';
  return t;
}
```
-/
def normalizeTerm (term : String) : String :=
  let t1 := collapseWS (trimChars term.toList)
  let t2 := t1.map fun c => if bracketChars.contains c then ' ' else c
  let t3 := stripTrailingDash (trimChars (collapseWS t2))
  if (String.mk t3).length < 2 then ""
  else if looksBroken (String.mk t3) then ""
  else String.mk t3

/-! ## Score accumulation (v2 `fromInterestKR`)

```js
const score = new Map(); // term -> { score, sources:Set }
const addScore = (term, w, src) => {
  const t = normalizeTerm(term);
  if (!t) return;
  const v = score.get(t) || { score: 0, sources: new Set() };
  v.score += w;
  v.sources.add(src);
  score.set(t, v);
};
```
The map is modelled as a total function with the `get`-default built in, a
`Set` as its insertion-ordered duplicate-free element list. -/

structure ScoreEntry where
  score : ℚ := 0
  sources : List String := []
deriving Repr, DecidableEq

/-- JS `Set.prototype.add`: append only if absent. -/
def jsSetAdd (l : List String) (x : String) : List String :=
  if l.contains x then l else l ++ [x]

def addScore (m : String → ScoreEntry) (term : String) (w : ℚ) (src : String) :
    String → ScoreEntry :=
  if normalizeTerm term = "" then m
  else fun k =>
    if k = normalizeTerm term then
      { score := (m (normalizeTerm term)).score + w,
        sources := jsSetAdd (m (normalizeTerm term)).sources src }
    else m k

/-! ## Phrase extraction and positional weights (v2) -/

/-- `extractPhrases`: unigrams (×1.0), adjacent bigrams of length ≤ 26
(×1.35), adjacent trigrams of length ≤ 30 (×1.55). -/
def extractPhrases (title hl : String) : List (String × ℚ) :=
  let toks := tokenizeOrdered title hl
  (toks.map fun t => (t, (1.0 : ℚ))) ++
    ((toks.zip toks.tail).filterMap fun p =>
      if (p.1 ++ " " ++ p.2).length ≤ 26 then some (p.1 ++ " " ++ p.2, (1.35 : ℚ))
      else none) ++
    ((toks.zip (toks.tail.zip toks.tail.tail)).filterMap fun p =>
      if (p.1 ++ " " ++ p.2.1 ++ " " ++ p.2.2).length ≤ 30 then
        some (p.1 ++ " " ++ p.2.1 ++ " " ++ p.2.2, (1.55 : ℚ))
      else none)

/-- `sourceWeights` of `fromInterestKR`. -/
def sourceWeightTrends : ℚ := 3.2
def sourceWeightNewsSearch : ℚ := 1.6
def sourceWeightNewsHome : ℚ := 1.2
def sourceWeightYtSuggest : ℚ := 0.9

/-- `posW = (L - i) / L` for a result at index `i` out of `L`. -/
def posWeight (i L : ℕ) : ℚ := ((L : ℚ) - i) / L

/-- Trends RSS observation weight: `1000 * posW * sourceWeights.trends`. -/
def trendsWeight (i L : ℕ) : ℚ := 1000 * posWeight i L * sourceWeightTrends

/-- News-home observation weight: `90 * posW * mult * sourceWeights.newsHome`. -/
def newsHomeWeight (i L : ℕ) (mult : ℚ) : ℚ :=
  90 * posWeight i L * mult * sourceWeightNewsHome

/-- Seed news-search observation weight: `130 * posW * mult * sourceWeights.newsSearch`. -/
def newsSearchWeight (i L : ℕ) (mult : ℚ) : ℚ :=
  130 * posWeight i L * mult * sourceWeightNewsSearch

/-- YouTube-suggest observation weight: `90 * (1 - k/25) * sourceWeights.ytSuggest`
for `k < min(25, sugg.length)`. -/
def ytSuggestWeight (k : ℕ) : ℚ := 90 * (1 - (k : ℚ) / 25) * sourceWeightYtSuggest

theorem posWeight_pos {i L : ℕ} (h : i < L) : 0 < posWeight i L := by
  unfold posWeight
  have hL : (0 : ℚ) < L := by
    exact_mod_cast Nat.pos_of_ne_zero (by omega)
  have hi : (i : ℚ) < L := by exact_mod_cast h
  exact div_pos (by linarith) hL

theorem jsSetAdd_mem (l : List String) (x : String) : x ∈ jsSetAdd l x := by
  unfold jsSetAdd
  by_cases h : l.contains x
  · rw [if_pos h]; simpa using h
  · rw [if_neg h]; simp

theorem jsSetAdd_superset (l : List String) (x : String) :
    ∀ s ∈ l, s ∈ jsSetAdd l x := by
  intro s hs
  unfold jsSetAdd
  by_cases h : l.contains x
  · rw [if_pos h]; exact hs
  · rw [if_neg h]; exact List.mem_append_left _ hs

theorem jsSetAdd_nodup {l : List String} (x : String) (h : l.Nodup) :
    (jsSetAdd l x).Nodup := by
  unfold jsSetAdd
  by_cases hc : l.contains x
  · rw [if_pos hc]; exact h
  · rw [if_neg hc]
    replace hc : x ∉ l := by simpa using hc
    simp [List.nodup_append, h, hc]

/-! ## C3: score accumulation is strictly additive -/

/-- **C3.** Folding an observation in via `addScore` with a surviving
normalized term and a positive weight strictly increases that term's
accumulated score by exactly the weight and records the source; a source not
seen before grows the source set by exactly one entry, a repeated source name
leaves it unchanged (no duplicates ever); no entry's score ever decreases and
no source set ever shrinks; and every positional weight the pass supplies
(trends, news-home, seed news-search, yt-suggest, phrase multipliers) is
positive. -/
theorem addScore_strictly_additive (m : String → ScoreEntry) (term : String)
    (w : ℚ) (src : String) (hterm : normalizeTerm term ≠ "") (hw : 0 < w) :
    (addScore m term w src (normalizeTerm term)).score
        = (m (normalizeTerm term)).score + w ∧
    (m (normalizeTerm term)).score < (addScore m term w src (normalizeTerm term)).score ∧
    src ∈ (addScore m term w src (normalizeTerm term)).sources ∧
    (src ∉ (m (normalizeTerm term)).sources →
      (addScore m term w src (normalizeTerm term)).sources.length
        = (m (normalizeTerm term)).sources.length + 1) ∧
    (src ∈ (m (normalizeTerm term)).sources →
      (addScore m term w src (normalizeTerm term)).sources
        = (m (normalizeTerm term)).sources) ∧
    (∀ k, (m k).score ≤ (addScore m term w src k).score) ∧
    (∀ k, ∀ s ∈ (m k).sources, s ∈ (addScore m term w src k).sources) ∧
    (∀ k, (m k).sources.Nodup → (addScore m term w src k).sources.Nodup) ∧
    (∀ i L, i < L → 0 < trendsWeight i L) ∧
    (∀ i L mult, i < L → 0 < mult → 0 < newsHomeWeight i L mult) ∧
    (∀ i L mult, i < L → 0 < mult → 0 < newsSearchWeight i L mult) ∧
    (∀ k, k < 25 → 0 < ytSuggestWeight k) ∧
    (∀ title hl, ∀ p ∈ extractPhrases title hl, 0 < p.2) := by
  have hsome : ∀ k, addScore m term w src k =
      if k = normalizeTerm term then
        { score := (m (normalizeTerm term)).score + w,
          sources := jsSetAdd (m (normalizeTerm term)).sources src }
      else m k := by
    intro k
    unfold addScore
    rw [if_neg hterm]
  have hself := hsome (normalizeTerm term)
  rw [if_pos rfl] at hself
  refine ⟨?_, ?_, ?_, ?_, ?_, ?_, ?_, ?_, ?_, ?_, ?_, ?_, ?_⟩
  · rw [hself]
  · rw [hself]
    simpa using hw
  · rw [hself]
    exact jsSetAdd_mem _ _
  · intro hnew
    rw [hself]
    show (jsSetAdd (m (normalizeTerm term)).sources src).length = _
    unfold jsSetAdd
    rw [if_neg (by simpa using hnew)]
    simp
  · intro hold
    rw [hself]
    show jsSetAdd (m (normalizeTerm term)).sources src = _
    unfold jsSetAdd
    rw [if_pos (by simpa using hold)]
  · intro k
    rw [hsome k]
    by_cases hk : k = normalizeTerm term
    · subst hk
      rw [if_pos rfl]
      simpa using hw.le
    · rw [if_neg hk]
  · intro k s hs
    rw [hsome k]
    by_cases hk : k = normalizeTerm term
    · subst hk
      rw [if_pos rfl]
      exact jsSetAdd_superset _ _ s hs
    · rw [if_neg hk]
      exact hs
  · intro k hnd
    rw [hsome k]
    by_cases hk : k = normalizeTerm term
    · subst hk
      rw [if_pos rfl]
      exact jsSetAdd_nodup _ hnd
    · rw [if_neg hk]
      exact hnd
  · intro i L h
    have := posWeight_pos h
    unfold trendsWeight sourceWeightTrends
    nlinarith
  · intro i L mult h hm
    have := posWeight_pos h
    unfold newsHomeWeight sourceWeightNewsHome
    nlinarith
  · intro i L mult h hm
    have := posWeight_pos h
    unfold newsSearchWeight sourceWeightNewsSearch
    nlinarith
  · intro k hk
    unfold ytSuggestWeight sourceWeightYtSuggest
    have hk25 : (k : ℚ) < 25 := by
      exact_mod_cast hk.trans_le (le_refl 25)
    have h1 : (k : ℚ) / 25 < 1 := (div_lt_one (by norm_num)).mpr hk25
    nlinarith
  · intro title hl p hp
    unfold extractPhrases at hp
    simp only [List.mem_append, List.mem_map, List.mem_filterMap] at hp
    rcases hp with (⟨t, -, rfl⟩ | ⟨q, -, hq⟩) | ⟨q, -, hq⟩
    · norm_num
    · split at hq
      · obtain rfl := Option.some.inj hq
        norm_num
      · exact absurd hq (by simp)
    · split at hq
      · obtain rfl := Option.some.inj hq
        norm_num
      · exact absurd hq (by simp)

/-- Witness for `addScore_strictly_additive` at the empty map,
term "테슬라", weight 1, source "trends". -/
theorem addScore_strictly_additive_witness :
    normalizeTerm "테슬라" ≠ "" ∧ (0 : ℚ) < 1 ∧
    ((addScore (fun _ => {}) "테슬라" 1 "trends" (normalizeTerm "테슬라")).score
      = ((fun _ => ({} : ScoreEntry)) (normalizeTerm "테슬라")).score + 1 ∧
     "trends" ∈ (addScore (fun _ => {}) "테슬라" 1 "trends" (normalizeTerm "테슬라")).sources) := by
  have h := addScore_strictly_additive (fun _ => {}) "테슬라" 1 "trends"
    (by decide) (by norm_num)
  exact ⟨by decide, by norm_num, h.1, h.2.2.1⟩

/-! ## Related terms (v2 `deriveFromTitlesForRelated` / `pickRelatedForTerm`)

```js
function deriveFromTitlesForRelated(titles, hl) {
  const related = new Map();
  for (const title of (titles || []).slice(0, 2500)) {
    const toks = tokenizeOrdered(title, hl);
    const uniqToks = Array.from(new Set(toks));
    for (let i = 0; i < uniqToks.length; i++) {
      const a = uniqToks[i];
      if (!related.has(a)) related.set(a, new Map());
      const m = related.get(a);
      for (let j = 0; j < uniqToks.length; j++) {
        if (i === j) continue;
        const b = uniqToks[j];
        m.set(b, (m.get(b) || 0) + 1);
      }
    }
  }
  const relatedList = (term) => {
    const m = related.get(term);
    if (!m) return [];
    return Array.from(m.entries()).sort((a, b) => b[1] - a[1]).slice(0, 12).map(([t]) => t);
  };
  return { relatedList };
}
```
A JS `Map` is modelled as an insertion-ordered association list (`set` on a
present key updates in place, on an absent key appends — both orders are
preserved below). -/

/-- The nested co-occurrence map: outer token → (co-token → count). -/
abbrev RelMap := List (String × List (String × ℕ))

/-- `m.set(b, (m.get(b) || 0) + 1)` on a counter map. -/
def bumpCount : List (String × ℕ) → String → List (String × ℕ)
  | [], b => [(b, 1)]
  | (k, c) :: rest, b =>
    if k = b then (k, c + 1) :: rest else (k, c) :: bumpCount rest b

/-- The inner `j` loop: bump the counter of every co-token. -/
def bumpAll (m : List (String × ℕ)) (bs : List String) : List (String × ℕ) :=
  bs.foldl bumpCount m

/-- `if (!related.has(a)) related.set(a, new Map())`. -/
def ensureKey (rel : RelMap) (a : String) : RelMap :=
  if (rel.map Prod.fst).contains a then rel else rel ++ [(a, [])]

/-- Mutate the entry of key `a` in place. -/
def updateKey (rel : RelMap) (a : String) (f : List (String × ℕ) → List (String × ℕ)) :
    RelMap :=
  rel.map fun e => if e.1 = a then (e.1, f e.2) else e

/-- The `i` loop over one title's unique tokens: the co-tokens of the token
at position `i` are those before it (`done`) and after it (`rest`), in
`j`-ascending order. -/
def coOccurTitle : RelMap → List String → List String → RelMap
  | rel, _, [] => rel
  | rel, done, a :: rest =>
    coOccurTitle (updateKey (ensureKey rel a) a fun m => bumpAll m (done ++ rest))
      (done ++ [a]) rest

/-- `deriveFromTitlesForRelated` (the map; `relatedList` is the lookup). -/
def deriveFromTitlesForRelated (titles : List String) (hl : String) : RelMap :=
  (titles.take 2500).foldl
    (fun rel title => coOccurTitle rel [] (dedupFirst [] (tokenizeOrdered title hl))) []

/-- The `relatedList` closure: entries of a token's counter map, stable-sorted
by count descending, first 12 keys. -/
def relatedList (rel : RelMap) (term : String) : List String :=
  match rel.find? fun e => e.1 == term with
  | none => []
  | some e => ((e.2.mergeSort fun a b => decide (b.2 ≤ a.2)).take 12).map Prod.fst

/--
```js
function pickRelatedForTerm(term, relatedList, hl) {
  const t = String(term || '').trim();
  if (!t) return [];
  if (t.includes(' ')) {
    const parts = t.split(' ').filter(Boolean);
    const base = parts[parts.length - 1];
    const rel = relatedList(base);
    return uniq([`${t} 검색`, ...rel]).slice(0, 12);
  }
  const rel = relatedList(t);
  if (rel.length) return rel.slice(0, 12);
  return uniq([`${t} 뜻`, `${t} 이유`, `${t} 후기`, `${t} 사건`]).slice(0, 8);
}
```
`uniq(arr) = Array.from(new Set(arr))` is `dedupFirst []`; `split(' ')` with
`filter(Boolean)` is the list of maximal runs of non-space characters. -/
def pickRelatedForTerm (term : String) (rel : RelMap) (_hl : String) : List String :=
  let t := jsTrim term
  if t = "" then []
  else if jsIncludes t " " then
    let parts := (runsOf (fun c => !(c == ' ')) t.toList).map String.mk
    let base := parts.getLast?.getD ""
    (dedupFirst [] ((t ++ " 검색") :: relatedList rel base)).take 12
  else
    let r := relatedList rel t
    if r.isEmpty then
      (dedupFirst [] [t ++ " 뜻", t ++ " 이유", t ++ " 후기", t ++ " 사건"]).take 8
    else r.take 12

/-! ## interestKR provider core (v2 `fromInterestKR`, deterministic tail)

The network-collection phase of `fromInterestKR` fills the `score` map via
`addScore`; the deterministic tail below takes that map (as its entry list)
and produces the ranked items:

```js
const entries = Array.from(score.entries())
  .map(([term, v]) => ({ term, scoreRaw: v.score, sources: Array.from(v.sources) }))
  .filter((x) => x.term.length >= 2)
  .filter((x) => !looksBroken(x.term));
if (entries.length < 200) {
  throw new Error('interestKR 수집량이 너무 적습니다 (네트워크/차단 가능).');
}
entries.sort((a, b) => b.scoreRaw - a.scoreRaw);
const top = entries.slice(0, limit);
const { relatedList } = deriveFromTitlesForRelated(titlesForRelated, hl);
const items = top.map((x, idx) => {
  const rank = idx + 1;
  const grade = computeGradeByRank(rank, top.length);
  const related = pickRelatedForTerm(x.term, relatedList, hl);
  const series = synthSeries(bucketCount(tf), Math.max(15, Math.round(x.scoreRaw / 6)));
  return { rank, grade, term: x.term, scoreRaw: Math.round(x.scoreRaw),
           sources: x.sources.slice(0, 6), series, related, links: ... };
});
```
`links` of an item are constructed URL strings and are omitted from the item
model; the `Math.random()` draws of each item's synthetic series are supplied
by `SeriesRnd`; `titlesForRelated` is the title list the seed workers
collected during the network phase. -/

def bucketCount (tf : String) : ℕ :=
  if tf = "hour" then 24
  else if tf = "day" then 7
  else if tf = "week" then 8
  else if tf = "month" then 12
  else 24

structure PoolEntry where
  term : String
  scoreRaw : ℚ
  sources : List String
deriving Repr, DecidableEq

/-- The per-item `Math.random()` draws of the synthetic series, indexed by
item position. -/
structure SeriesRnd where
  rSlope : ℕ → ℚ
  rVol : ℕ → ℚ
  rNoise : ℕ → ℕ → ℚ

structure InterestItem where
  rank : ℕ := 0
  grade : ℤ := 0
  term : String := ""
  scoreRaw : ℤ := 0
  sources : List String := []
  series : List ℤ := []
  related : List String := []
deriving Repr, DecidableEq

/-- The candidate pool: map the score-map entries, keep terms of length ≥ 2
that do not look broken. -/
def interestEntries (score : List (String × ScoreEntry)) : List PoolEntry :=
  ((score.map fun p => PoolEntry.mk p.1 p.2.score p.2.sources).filter
      fun x => 2 ≤ x.term.length).filter
    fun x => !looksBroken x.term

/-- `top.map((x, idx) => ({rank, grade, term, scoreRaw, sources, series, related}))`. -/
def buildInterestItems (rel : RelMap) (hl : String) (rnd : SeriesRnd) (tfN total : ℕ) :
    ℕ → List PoolEntry → List InterestItem
  | _, [] => []
  | idx, x :: xs =>
    { rank := idx + 1
      grade := computeGradeByRank (idx + 1) total
      term := x.term
      scoreRaw := jsRound x.scoreRaw
      sources := x.sources.take 6
      series := synthSeries tfN ((max 15 (jsRound (x.scoreRaw / 6)) : ℤ) : ℚ)
        (rnd.rSlope idx) (rnd.rVol idx) (rnd.rNoise idx)
      related := pickRelatedForTerm x.term rel hl } ::
      buildInterestItems rel hl rnd tfN total (idx + 1) xs

/-- The deterministic tail of `fromInterestKR`: guard the pool size, sort by
raw score descending (JS sort is stable, as is `mergeSort`), cut to `limit`,
build items. An `Except.error` models the `throw`. -/
def fromInterestKRCore (score : List (String × ScoreEntry))
    (titlesForRelated : List String) (limit : ℕ) (tf hl : String)
    (rnd : SeriesRnd) : Except String (List InterestItem) :=
  let entries := interestEntries score
  if entries.length < 200 then
    Except.error "interestKR 수집량이 너무 적습니다 (네트워크/차단 가능)."
  else
    let top := (entries.mergeSort fun a b => decide (b.scoreRaw ≤ a.scoreRaw)).take limit
    let rel := deriveFromTitlesForRelated titlesForRelated hl
    Except.ok (buildInterestItems rel hl rnd (bucketCount tf) top.length 0 top)

/-! ## C5: insufficient pool throws, never a thin ranking -/

/-- **C5.** If, after collection/normalization/filtering, the interestKR
candidate pool has fewer than 200 entries, the provider throws (the fixed
insufficient-signal error) instead of returning a ranking; conversely any
returned ranking came from a pool of at least 200 entries. -/
theorem interestKR_pool_guard (score : List (String × ScoreEntry))
    (titlesForRelated : List String) (limit : ℕ) (tf hl : String)
    (rnd : SeriesRnd) :
    ((interestEntries score).length < 200 →
      fromInterestKRCore score titlesForRelated limit tf hl rnd =
        Except.error "interestKR 수집량이 너무 적습니다 (네트워크/차단 가능).") ∧
    (∀ items, fromInterestKRCore score titlesForRelated limit tf hl rnd = Except.ok items →
      200 ≤ (interestEntries score).length) := by
  constructor
  · intro h
    unfold fromInterestKRCore
    rw [if_pos h]
  · intro items h
    unfold fromInterestKRCore at h
    by_cases hlt : (interestEntries score).length < 200
    · rw [if_pos hlt] at h
      cases h
    · omega

/-- Witness for `interestKR_pool_guard`: the empty collection (pool size 0)
makes the provider throw. -/
theorem interestKR_pool_guard_witness :
    (interestEntries []).length < 200 ∧
    fromInterestKRCore [] [] 2000 "hour" "ko" ⟨fun _ => 0, fun _ => 0, fun _ _ => 0⟩ =
      Except.error "interestKR 수집량이 너무 적습니다 (네트워크/차단 가능)." :=
  ⟨by decide,
    (interestKR_pool_guard [] [] 2000 "hour" "ko"
      ⟨fun _ => 0, fun _ => 0, fun _ _ => 0⟩).1 (by decide)⟩

/-! ## Feed-title parsing (v2 `parseFeedTitles`)

```js
function parseFeedTitles(xmlText) {
  if (!xmlText || typeof xmlText !== 'string') return [];
  const titles = [];
  const pushTitle = (raw) => {
    const t = stripHtml(decodeXml(raw)).trim();
    if (t && t.length >= 2) titles.push(t);
  };
  const rssRe = /<item[\s\S]*?<title>([\s\S]*?)<\/title>[\s\S]*?<\/item>/gi;
  while ((m = rssRe.exec(xmlText)) !== null) pushTitle(m[1]);
  const atomRe = /<entry[\s\S]*?<title[^>]*>([\s\S]*?)<\/title>[\s\S]*?<\/entry>/gi;
  while ((m = atomRe.exec(xmlText)) !== null) pushTitle(m[1]);
  return titles;
}
```
The lazy regex loops are embedded as linear scans: each match takes the first
`<item`, then the first `<title>` after it, the first `</title>` after that
(the capture lies between), the first `</item>` after that, and continues
after it — which is what the lazy quantifiers with a global `lastIndex` do.
The scans recurse on a strictly shrinking suffix; a fuel argument primed with
the input length (each step consumes at least one character) keeps the
recursion structural. -/

/-- `.replace(pat, repl)` with a global flag: leftmost, non-overlapping. -/
def replaceAllFuel (pat repl : List Char) : ℕ → List Char → List Char
  | 0, l => l
  | _ + 1, [] => []
  | fuel + 1, c :: cs =>
    if !pat.isEmpty && startsWithBy chEq pat (c :: cs) then
      repl ++ replaceAllFuel pat repl fuel ((c :: cs).drop pat.length)
    else c :: replaceAllFuel pat repl fuel cs

def jsReplaceAll (s pat repl : String) : String :=
  String.mk (replaceAllFuel pat.toList repl.toList s.toList.length s.toList)

/-- `.replace(/<!\[CDATA\[([\s\S]*?)\]\]>/g, '$1')`. -/
def cdataFuel : ℕ → List Char → List Char
  | 0, l => l
  | fuel + 1, l =>
    match findSub chEq "<![CDATA[".toList l with
    | none => l
    | some i =>
      let rest := l.drop (i + 9)
      match findSub chEq "]]>".toList rest with
      | none => l
      | some j => l.take i ++ rest.take j ++ cdataFuel fuel (rest.drop (j + 3))

/-- `decodeXml`: CDATA unwrap, then the XML entity replacements. -/
def decodeXml (s : String) : String :=
  let u := String.mk (cdataFuel s.toList.length s.toList)
  jsReplaceAll (jsReplaceAll (jsReplaceAll (jsReplaceAll (jsReplaceAll
    (jsReplaceAll u "&lt;" "<") "&gt;" ">") "&amp;" "&") "&quot;" "\"")
    "&#39;" "'") "&apos;" "'"

/-- `stripHtml`: `.replace(/<[^>]+>/g, '')`. -/
def stripHtmlFuel : ℕ → List Char → List Char
  | 0, l => l
  | _ + 1, [] => []
  | fuel + 1, c :: cs =>
    if c = '<' then
      match findSub chEq ['>'] cs with
      | none => c :: cs
      | some 0 => c :: stripHtmlFuel fuel cs
      | some (i + 1) => stripHtmlFuel fuel (cs.drop (i + 2))
    else c :: stripHtmlFuel fuel cs

def stripHtml (s : String) : String :=
  String.mk (stripHtmlFuel s.toList.length s.toList)

/-- One RSS `<item>…<title>…</title>…</item>` match per step. -/
def rssFuel : ℕ → List Char → List (List Char)
  | 0, _ => []
  | fuel + 1, l =>
    match findSub chEqCI "<item".toList l with
    | none => []
    | some i =>
      let r1 := l.drop (i + 5)
      match findSub chEqCI "<title>".toList r1 with
      | none => []
      | some j =>
        let r2 := r1.drop (j + 7)
        match findSub chEqCI "</title>".toList r2 with
        | none => []
        | some k =>
          let r3 := r2.drop (k + 8)
          match findSub chEqCI "</item>".toList r3 with
          | none => []
          | some m => r2.take k :: rssFuel fuel (r3.drop (m + 7))

/-- One Atom `<entry>…<title…>…</title>…</entry>` match per step. -/
def atomFuel : ℕ → List Char → List (List Char)
  | 0, _ => []
  | fuel + 1, l =>
    match findSub chEqCI "<entry".toList l with
    | none => []
    | some i =>
      let r1 := l.drop (i + 6)
      match findSub chEqCI "<title".toList r1 with
      | none => []
      | some j =>
        let r2 := r1.drop (j + 6)
        match findSub chEq ['>'] r2 with
        | none => []
        | some g =>
          let r3 := r2.drop (g + 1)
          match findSub chEqCI "</title>".toList r3 with
          | none => []
          | some k =>
            let r4 := r3.drop (k + 8)
            match findSub chEqCI "</entry>".toList r4 with
            | none => []
            | some m => r3.take k :: atomFuel fuel (r4.drop (m + 8))

/-- v2 `parseFeedTitles` (the v1 copy additionally deduplicates). -/
def parseFeedTitles (xmlText : String) : List String :=
  (((rssFuel xmlText.toList.length xmlText.toList ++
      atomFuel xmlText.toList.length xmlText.toList).map
    fun raw => jsTrim (stripHtml (decodeXml (String.mk raw)))).filter
    fun t => 2 ≤ t.length)

/-! ## C6: replacement-character sanitization -/

theorem looksBroken_of_hasFFFD (s : String) (h : hasFFFD s = true) :
    looksBroken s = true := by
  unfold looksBroken
  by_cases he : s = ""
  · rw [if_pos he]
  · rw [if_neg he, if_pos h]

/-- Terms and related lists of items built by `buildInterestItems` come from
the pool list and `pickRelatedForTerm`. -/
theorem buildInterestItems_term (rel : RelMap) (hl : String) (rnd : SeriesRnd)
    (tfN total : ℕ) :
    ∀ idx l, ∀ it ∈ buildInterestItems rel hl rnd tfN total idx l,
      ∃ x ∈ l, it.term = x.term ∧ it.related = pickRelatedForTerm x.term rel hl := by
  intro idx l
  induction l generalizing idx with
  | nil => intro it hit; cases hit
  | cons x xs ih =>
    intro it hit
    unfold buildInterestItems at hit
    rcases List.mem_cons.mp hit with rfl | hit
    · exact ⟨x, List.mem_cons_self x xs, rfl, rfl⟩
    · obtain ⟨y, hy, hterm, hrel⟩ := ih (idx + 1) it hit
      exact ⟨y, List.mem_cons_of_mem x hy, hterm, hrel⟩

/-! ### U+FFFD-freeness of the co-occurrence map and related lists -/

theorem hasFFFD_eq_false_iff (s : String) : hasFFFD s = false ↔ '�' ∉ s.toList := by
  simp [hasFFFD]

theorem hasFFFD_append (a b : String) (ha : hasFFFD a = false)
    (hb : hasFFFD b = false) : hasFFFD (a ++ b) = false := by
  rw [hasFFFD_eq_false_iff] at ha hb ⊢
  intro hc
  rw [show (a ++ b).toList = a.toList ++ b.toList from rfl, List.mem_append] at hc
  exact hc.elim ha hb

theorem hasFFFD_jsTrim (s : String) (h : hasFFFD s = false) :
    hasFFFD (jsTrim s) = false := by
  rw [hasFFFD_eq_false_iff] at h ⊢
  intro hc
  exact h (mem_trimChars hc)

/-- Every co-token key of the co-occurrence map is U+FFFD-free. -/
def relKeysClean (rel : RelMap) : Prop :=
  ∀ e ∈ rel, ∀ p ∈ e.2, hasFFFD p.1 = false

theorem bumpCount_clean : ∀ (m : List (String × ℕ)) (b : String),
    (∀ p ∈ m, hasFFFD p.1 = false) → hasFFFD b = false →
    ∀ p ∈ bumpCount m b, hasFFFD p.1 = false := by
  intro m
  induction m with
  | nil =>
    intro b _ hb p hp
    simp [bumpCount] at hp
    subst hp
    exact hb
  | cons kc rest ih =>
    obtain ⟨k, c⟩ := kc
    intro b hm hb p hp
    unfold bumpCount at hp
    by_cases h : k = b
    · rw [if_pos h] at hp
      rcases List.mem_cons.mp hp with rfl | hp
      · exact hm (k, c) (List.mem_cons_self _ _)
      · exact hm p (List.mem_cons_of_mem _ hp)
    · rw [if_neg h] at hp
      rcases List.mem_cons.mp hp with rfl | hp
      · exact hm (k, c) (List.mem_cons_self _ _)
      · exact ih b (fun q hq => hm q (List.mem_cons_of_mem _ hq)) hb p hp

theorem bumpAll_clean : ∀ (bs : List String) (m : List (String × ℕ)),
    (∀ p ∈ m, hasFFFD p.1 = false) → (∀ b ∈ bs, hasFFFD b = false) →
    ∀ p ∈ bumpAll m bs, hasFFFD p.1 = false := by
  intro bs
  induction bs with
  | nil => intro m hm _ p hp; exact hm p hp
  | cons b rest ih =>
    intro m hm hbs p hp
    have hstep : bumpAll m (b :: rest) = bumpAll (bumpCount m b) rest := rfl
    rw [hstep] at hp
    exact ih (bumpCount m b)
      (bumpCount_clean m b hm (hbs b (List.mem_cons_self _ _)))
      (fun x hx => hbs x (List.mem_cons_of_mem _ hx)) p hp

theorem ensureKey_clean {rel : RelMap} (a : String) (h : relKeysClean rel) :
    relKeysClean (ensureKey rel a) := by
  unfold ensureKey
  by_cases hc : (rel.map Prod.fst).contains a
  · rw [if_pos hc]; exact h
  · rw [if_neg hc]
    intro e he p hp
    rcases List.mem_append.mp he with he | he
    · exact h e he p hp
    · simp at he
      subst he
      exact absurd hp (List.not_mem_nil p)

theorem updateKey_clean {rel : RelMap} {a : String}
    {f : List (String × ℕ) → List (String × ℕ)} (h : relKeysClean rel)
    (hf : ∀ m, (∀ p ∈ m, hasFFFD p.1 = false) → ∀ p ∈ f m, hasFFFD p.1 = false) :
    relKeysClean (updateKey rel a f) := by
  intro e he p hp
  unfold updateKey at he
  obtain ⟨e0, he0, heq⟩ := List.mem_map.mp he
  by_cases hc : e0.1 = a
  · rw [if_pos hc] at heq
    subst heq
    exact hf e0.2 (h e0 he0) p hp
  · rw [if_neg hc] at heq
    subst heq
    exact h e0 he0 p hp

theorem coOccurTitle_clean : ∀ (todo done : List String) (rel : RelMap),
    relKeysClean rel → (∀ b ∈ done ++ todo, hasFFFD b = false) →
    relKeysClean (coOccurTitle rel done todo) := by
  intro todo
  induction todo with
  | nil => intro done rel h _; exact h
  | cons a rest ih =>
    intro done rel h hall
    show relKeysClean (coOccurTitle
      (updateKey (ensureKey rel a) a fun m => bumpAll m (done ++ rest))
      (done ++ [a]) rest)
    apply ih
    · apply updateKey_clean (ensureKey_clean a h)
      intro m hm p hp
      refine bumpAll_clean (done ++ rest) m hm (fun b hb => hall b ?_) p hp
      rcases List.mem_append.mp hb with h1 | h1
      · exact List.mem_append_left _ h1
      · exact List.mem_append_right _ (List.mem_cons_of_mem _ h1)
    · intro b hb
      apply hall
      rcases List.mem_append.mp hb with h1 | h1
      · rcases List.mem_append.mp h1 with h2 | h2
        · exact List.mem_append_left _ h2
        · simp at h2
          subst h2
          exact List.mem_append_right _ (List.mem_cons_self _ _)
      · exact List.mem_append_right _ (List.mem_cons_of_mem _ h1)

theorem deriveFromTitlesForRelated_clean (titles : List String) (hl : String) :
    relKeysClean (deriveFromTitlesForRelated titles hl) := by
  unfold deriveFromTitlesForRelated
  have main : ∀ (ts : List String) (rel : RelMap), relKeysClean rel →
      relKeysClean (ts.foldl (fun rel title =>
        coOccurTitle rel [] (dedupFirst [] (tokenizeOrdered title hl))) rel) := by
    intro ts
    induction ts with
    | nil => intro rel h; exact h
    | cons t rest ih =>
      intro rel h
      rw [List.foldl_cons]
      apply ih
      apply coOccurTitle_clean _ _ _ h
      intro b hb
      rw [List.nil_append] at hb
      exact tokenizeOrdered_no_FFFD t hl b (mem_dedupFirst.mp hb).1
  exact main (titles.take 2500) []
    (fun e he => absurd he (List.not_mem_nil e))

theorem relatedList_clean {rel : RelMap} (h : relKeysClean rel) (term : String) :
    ∀ s ∈ relatedList rel term, hasFFFD s = false := by
  intro s hs
  unfold relatedList at hs
  cases hfind : rel.find? fun e => e.1 == term with
  | none => rw [hfind] at hs; cases hs
  | some e =>
    rw [hfind] at hs
    obtain ⟨p, hp, rfl⟩ := List.mem_map.mp hs
    exact h e (List.mem_of_find?_eq_some hfind) p
      (List.mem_mergeSort.mp (List.take_subset _ _ hp))

theorem pickRelatedForTerm_clean (term : String) (rel : RelMap) (hl : String)
    (hterm : hasFFFD term = false) (hrel : relKeysClean rel) :
    ∀ s ∈ pickRelatedForTerm term rel hl, hasFFFD s = false := by
  intro s hs
  simp only [pickRelatedForTerm] at hs
  have ht : hasFFFD (jsTrim term) = false := hasFFFD_jsTrim term hterm
  by_cases h0 : jsTrim term = ""
  · rw [if_pos h0] at hs
    cases hs
  · rw [if_neg h0] at hs
    by_cases h1 : jsIncludes (jsTrim term) " " = true
    · rw [if_pos h1] at hs
      have hs1 := (mem_dedupFirst.mp (List.take_subset _ _ hs)).1
      rcases List.mem_cons.mp hs1 with rfl | hmem
      · exact hasFFFD_append _ _ ht (by decide)
      · exact relatedList_clean hrel _ s hmem
    · rw [if_neg h1] at hs
      by_cases h2 : (relatedList rel (jsTrim term)).isEmpty = true
      · rw [if_pos h2] at hs
        have hs1 := (mem_dedupFirst.mp (List.take_subset _ _ hs)).1
        simp only [List.mem_cons, List.not_mem_nil, or_false] at hs1
        rcases hs1 with rfl | rfl | rfl | rfl <;>
          exact hasFFFD_append _ _ ht (by decide)
      · rw [if_neg h2] at hs
        exact relatedList_clean hrel _ s (List.take_subset _ _ hs)

/-- **C6 (amended).** The interestKR pipeline never emits U+FFFD: any string
containing the replacement character is `looksBroken`; `normalizeTerm` never
returns a string containing it (so no score-map key contains it); every term
of an interestKR ranking is free of it and so is every entry of every item's
`related` list (`pickRelatedForTerm` emits only co-occurrence tokens or
literal suffixes of an already-clean term); every token `tokenizeOrdered`
produces is free of it.  (The claim's further assertion that
`parseFeedTitles` output is also free of it is refuted separately:
`parseFeedTitles` does not strip the marker.) -/
theorem interestKR_no_FFFD :
    (∀ s : String, hasFFFD s = true → looksBroken s = true) ∧
    (∀ term : String, hasFFFD (normalizeTerm term) = false) ∧
    (∀ score titlesForRelated limit tf hl rnd items,
      fromInterestKRCore score titlesForRelated limit tf hl rnd = Except.ok items →
      ∀ it ∈ items, hasFFFD it.term = false ∧
        ∀ r ∈ it.related, hasFFFD r = false) ∧
    (∀ text hl : String, ∀ w ∈ tokenizeOrdered text hl, hasFFFD w = false) := by
  refine ⟨looksBroken_of_hasFFFD, ?_, ?_, tokenizeOrdered_no_FFFD⟩
  · intro term
    unfold normalizeTerm
    by_cases h2 : (String.mk (stripTrailingDash (trimChars (collapseWS
        ((collapseWS (trimChars term.toList)).map fun c =>
          if bracketChars.contains c then ' ' else c))))).length < 2
    · rw [if_pos h2]
      rfl
    · rw [if_neg h2]
      by_cases hb : looksBroken (String.mk (stripTrailingDash (trimChars (collapseWS
          ((collapseWS (trimChars term.toList)).map fun c =>
            if bracketChars.contains c then ' ' else c)))))
      · rw [if_pos hb]
        rfl
      · rw [if_neg hb]
        rw [Bool.eq_false_iff]
        intro hf
        exact hb (looksBroken_of_hasFFFD _ hf)
  · intro score titlesForRelated limit tf hl rnd items h it hit
    unfold fromInterestKRCore at h
    by_cases hlt : (interestEntries score).length < 200
    · rw [if_pos hlt] at h
      cases h
    · rw [if_neg hlt] at h
      obtain rfl := (Except.ok.inj h).symm
      obtain ⟨x, hx, hterm, hrelated⟩ :=
        buildInterestItems_term (deriveFromTitlesForRelated titlesForRelated hl) hl
          rnd (bucketCount tf) _ 0 _ it hit
      have hx' : x ∈ (interestEntries score).mergeSort
          fun a b => decide (b.scoreRaw ≤ a.scoreRaw) :=
        List.take_subset _ _ hx
      have hxe : x ∈ interestEntries score := List.mem_mergeSort.mp hx'
      unfold interestEntries at hxe
      obtain ⟨-, hnb⟩ := List.mem_filter.mp hxe
      have hxclean : hasFFFD x.term = false := by
        rw [Bool.eq_false_iff]
        intro hf
        have := looksBroken_of_hasFFFD _ hf
        simp [this] at hnb
      refine ⟨by rw [hterm]; exact hxclean, ?_⟩
      intro r hr
      rw [hrelated] at hr
      exact pickRelatedForTerm_clean x.term _ hl hxclean
        (deriveFromTitlesForRelated_clean titlesForRelated hl) r hr

/-- Witness for `interestKR_no_FFFD`: a string containing U+FFFD is flagged
broken. -/
theorem interestKR_no_FFFD_witness :
    hasFFFD "ab�" = true ∧ looksBroken "ab�" = true :=
  ⟨by decide, interestKR_no_FFFD.1 "ab�" (by decide)⟩

/-- **C6 (counterexample).** `parseFeedTitles` returns titles that still
contain the replacement character: nothing in the fetch/parse path strips
U+FFFD, so it reaches this public output (and providers that use feed titles
directly as terms expose it further). -/
theorem parseFeedTitles_FFFD_counterexample :
    parseFeedTitles "<item><title>ab�</title></item>" = ["ab�"] ∧
    hasFFFD "ab�" = true :=
  ⟨by decide, by decide⟩

/-! ## Response shapes, mock payload, dispatch, handler fallback, q filter

`links` maps and the `fetchedAt`/`tookMs` clock fields are omitted from the
models (constructed URL strings and wall-clock reads, touched by no claim).
-/

structure Meta where
  source : String := ""
  isMock : Bool := false
  keywordsAreLive : Bool := false
  seriesIsSynthetic : Bool := false
  note : Option String := none
  stale : Bool := false
  staleReason : Option String := none
deriving Repr, DecidableEq

/-- v1 item shape (`{term, series, score, related, links}`; `rank` is set by
`topN`). -/
structure ItemV1 where
  term : String := ""
  series : List ℤ := []
  score : ℤ := 0
  related : List String := []
  rank : ℕ := 0
deriving Repr, DecidableEq

structure PayloadV1 where
  items : List ItemV1 := []
  meta : Meta := {}
deriving Repr, DecidableEq

structure PayloadV2 where
  items : List InterestItem := []
  meta : Meta := {}
deriving Repr, DecidableEq

/-- `scoreFromSeries`: `last + (last - prev) * 0.6`, rounded. -/
def scoreFromSeries (series : List ℤ) : ℤ :=
  let last := series.getLast?.getD 0
  let prev := series.getD (series.length - 2) 0
  jsRound ((last : ℚ) + ((last : ℚ) - (prev : ℚ)) * 0.6)

/-- `arr.map((x, i) => ({...x, rank: i + 1}))` starting at index `i`. -/
def assignRanks : ℕ → List ItemV1 → List ItemV1
  | _, [] => []
  | i, x :: xs => { x with rank := i + 1 } :: assignRanks (i + 1) xs

/-- `topN`: stable sort by score descending, take `n`, assign 1-based ranks. -/
def topN (items : List ItemV1) (n : ℕ) : List ItemV1 :=
  assignRanks 0 ((items.mergeSort fun a b => decide (b.score ≤ a.score)).take n)

/-- The fixed mock term list of v1 `makeMock`. -/
def mockTerms : List String :=
  ["테슬라", "비트코인", "AI", "아이폰", "금리", "환율", "유튜브", "넷플릭스", "엔비디아",
   "나스닥", "코스피", "부동산", "다이어트", "여행", "반도체", "전기차", "CPI", "FOMC",
   "ETF", "코인"]

/-- The `Math.random()` draws of one `makeMock` call, indexed by term
position: the base draw and the three series draws. -/
structure MockRnd where
  base : ℕ → ℚ
  rSlope : ℕ → ℚ
  rVol : ℕ → ℚ
  rNoise : ℕ → ℕ → ℚ

/-- The item-building loop of `makeMock`. -/
def mockItems (n : ℕ) (rnd : MockRnd) : ℕ → List String → List ItemV1
  | _, [] => []
  | i, term :: rest =>
    let base : ℤ := 50 + ⌊rnd.base i * 120⌋
    let series := synthSeries n (base : ℚ) (rnd.rSlope i) (rnd.rVol i) (rnd.rNoise i)
    { term := term, series := series, score := scoreFromSeries series,
      related := [term ++ " 전망", term ++ " 뉴스", term ++ " 분석", term ++ " 가격"].take 4 } ::
      mockItems n rnd (i + 1) rest

/-- v1 `makeMock`: fixed terms, synthetic series, `isMock: true` metadata.
The call sites' `metaExtra` always carries `isMock: true` plus a note, which
is what `noteExtra` models. -/
def makeMock (tf _geo _hl : String) (rnd : MockRnd) (noteExtra : Option String) : PayloadV1 :=
  { items := topN (mockItems (bucketCount tf) rnd 0 mockTerms) 20,
    meta := { source := "mock", isMock := true, seriesIsSynthetic := true,
              note := noteExtra } }

/-! ### Source normalization and provider dispatch -/

/-- v1 `normalizeSource`. -/
def normalizeSourceV1 (s : String) : String :=
  let x := jsToLower s
  if jsIncludes x "youtube" then "youtube"
  else if jsIncludes x "naver" then "naver"
  else if jsIncludes x "reddit" then "reddit"
  else if jsIncludes x "trend" then "googleTrends"
  else if x = "news" || jsIncludes x "googlenews" then "news"
  else if jsIncludes x "hacker" then "hackernews"
  else if x = "mock" then "mock"
  else x

/-- v2 `normalizeSource`. -/
def normalizeSourceV2 (s : String) : String :=
  let x := jsToLower s
  if x = "interestkr" || jsIncludes x "interest" then "interestKR"
  else if x = "storykr" || jsIncludes x "story" then "storyKR"
  else if jsIncludes x "youtube" then "youtube"
  else if jsIncludes x "naver" then "naver"
  else if jsIncludes x "reddit" then "reddit"
  else if jsIncludes x "trend" then "googleTrends"
  else if x = "news" || jsIncludes x "googlenews" then "news"
  else if jsIncludes x "hacker" then "hackernews"
  else x

inductive ProviderV1
  | youtube | naver | reddit | googleTrends | news | hackernews
deriving Repr, DecidableEq

/-- What the v1 dispatcher decides to do: call a provider, or return a mock
payload immediately (with a note). -/
inductive DispatchV1
  | mock (note : String)
  | call (p : ProviderV1)
deriving Repr, DecidableEq

/-- v1 `dispatchProvider` (branch structure; provider invocations abstracted
to their selection). Unknown sources fall through to a mock. -/
def dispatchProviderV1 (source : String) (hasYtKey hasNaverKeys : Bool) : DispatchV1 :=
  if source = "mock" then .mock "proxy mock"
  else if source = "hackernews" then .call .hackernews
  else if source = "youtube" then
    if !hasYtKey then .mock "YT_KEY/YOUTUBE_API_KEY 없음 → mock" else .call .youtube
  else if source = "reddit" then .call .reddit
  else if source = "googleTrends" then .call .googleTrends
  else if source = "news" then .call .news
  else if source = "naver" then
    if !hasNaverKeys then .mock "NAVER_CLIENT_ID/SECRET 없음 → mock" else .call .naver
  else .mock ("unknown source(" ++ source ++ ") → mock")

inductive ProviderV2
  | interestKR | googleTrends | news | reddit | hackernews | youtube | naver | storyKR
deriving Repr, DecidableEq

/-- v2 `dispatchProvider`: unknown sources (and missing keys) throw. -/
def dispatchProviderV2 (source : String) (hasYtKey hasNaverKeys : Bool) :
    Except String ProviderV2 :=
  if source = "interestKR" then .ok .interestKR
  else if source = "googleTrends" then .ok .googleTrends
  else if source = "news" then .ok .news
  else if source = "reddit" then .ok .reddit
  else if source = "hackernews" then .ok .hackernews
  else if source = "youtube" then
    if !hasYtKey then .error "YT_KEY/YOUTUBE_API_KEY 없음" else .ok .youtube
  else if source = "naver" then
    if !hasNaverKeys then .error "NAVER_CLIENT_ID/SECRET 없음" else .ok .naver
  else if source = "storyKR" then .ok .storyKR
  else .error ("unknown source: " ++ source)

/-! ### Handler fallback (the `try { dispatchProvider } catch` blocks) -/

/-- v1 catch: stale (marked) if present, else mock. -/
def handlerFallbackV1 (tf geo hl : String) (rnd : MockRnd)
    (provider : Except String PayloadV1) (stale : Option PayloadV1) : PayloadV1 :=
  match provider with
  | .ok p => p
  | .error e =>
    match stale with
    | some s => { s with meta := { s.meta with stale := true, staleReason := some e } }
    | none => makeMock tf geo hl rnd (some ("provider 실패 → mock: " ++ e))

/-- The explicit JSON error object of the v2 handler's 503 response. -/
structure ErrorResponse where
  error : String
  message : String
deriving Repr, DecidableEq

/-- v2 catch: stale (marked) if present, else the explicit 503 error object
(v2 never falls back to a mock). -/
def handlerFallbackV2 (provider : Except String PayloadV2) (stale : Option PayloadV2) :
    Except ErrorResponse PayloadV2 :=
  match provider with
  | .ok p => .ok p
  | .error e =>
    match stale with
    | some s => .ok { s with meta := { s.meta with stale := true, staleReason := some e } }
    | none => .error { error := "provider_failed", message := e }

/-! ### Server-side q filter -/

/-- `x.term.toLowerCase().includes(q.toLowerCase())`. -/
def qMatch (q term : String) : Bool := jsIncludes (jsToLower term) (jsToLower q)

/-- v1: filter, then reassign consecutive 1-based ranks. -/
def applyQFilterV1 (q : String) (items : List ItemV1) : List ItemV1 :=
  if q = "" then items
  else assignRanks 0 (items.filter fun x => qMatch q x.term)

/-- v2: filter only — ranks are left as they were. -/
def applyQFilterV2 (q : String) (items : List InterestItem) : List InterestItem :=
  if q = "" then items
  else items.filter fun x => qMatch q x.term

/-! ## C2: provider failure falls back to stale or a flagged payload -/

/-- **C2.** When the provider call throws: with a last-known-good cache entry
the handler responds with exactly that entry's items, its meta carrying
`stale: true` and the failure reason; with no such entry, v2 responds with
the explicit `provider_failed` JSON error object and v1 with a mock payload
flagged `isMock: true` — in every case the exception is absorbed into a
response value, never re-raised. -/
theorem handler_fallback_spec :
    (∀ (e : String) (s : PayloadV2),
      handlerFallbackV2 (Except.error e) (some s) =
        Except.ok { s with meta := { s.meta with stale := true, staleReason := some e } } ∧
      ∀ p, handlerFallbackV2 (Except.error e) (some s) = Except.ok p →
        p.items = s.items ∧ p.meta.stale = true ∧ p.meta.staleReason = some e) ∧
    (∀ e : String, handlerFallbackV2 (Except.error e) none =
      Except.error { error := "provider_failed", message := e }) ∧
    (∀ (e tf geo hl : String) (rnd : MockRnd) (s : PayloadV1),
      handlerFallbackV1 tf geo hl rnd (Except.error e) (some s) =
        { s with meta := { s.meta with stale := true, staleReason := some e } } ∧
      (handlerFallbackV1 tf geo hl rnd (Except.error e) (some s)).items = s.items) ∧
    (∀ (e tf geo hl : String) (rnd : MockRnd),
      (handlerFallbackV1 tf geo hl rnd (Except.error e) none).meta.isMock = true ∧
      (handlerFallbackV1 tf geo hl rnd (Except.error e) none).meta.note =
        some ("provider 실패 → mock: " ++ e)) ∧
    (∀ (p : Except String PayloadV2) (st : Option PayloadV2),
      (∃ r, handlerFallbackV2 p st = Except.ok r) ∨
      (∃ err, handlerFallbackV2 p st = Except.error err)) := by
  refine ⟨?_, fun e => rfl, ?_, fun e tf geo hl rnd => ⟨rfl, rfl⟩, ?_⟩
  · intro e s
    refine ⟨rfl, ?_⟩
    intro p hp
    have : p = { s with meta := { s.meta with stale := true, staleReason := some e } } :=
      (Except.ok.inj hp).symm
    subst this
    exact ⟨rfl, rfl, rfl⟩
  · intro e tf geo hl rnd s
    exact ⟨rfl, rfl⟩
  · intro p st
    match p, st with
    | .ok r, _ => exact Or.inl ⟨r, rfl⟩
    | .error e, some s => exact Or.inl ⟨_, rfl⟩
    | .error e, none => exact Or.inr ⟨_, rfl⟩

/-! ## C8: unknown source handling differs between the two dispatchers -/

/-- **C8 (counterexample).** In the v2 (interestKR) handler, an unrecognized
`source` is not normalized to a mock: `dispatchProvider` raises an
`unknown source` error from inside dispatch. -/
theorem dispatchV2_unknown_counterexample :
    normalizeSourceV2 "foobar" = "foobar" ∧
    dispatchProviderV2 "foobar" false false = Except.error "unknown source: foobar" :=
  ⟨by decide, rfl⟩

/-- **C8 (amended).** An unrecognized source falls through to a clearly
flagged mock only in the v1 dispatcher; the v2 dispatcher throws an
`unknown source` error from inside dispatch, which the v2 handler then turns
into a stale response or the explicit `provider_failed` error object (never a
mock). -/
theorem dispatch_unknown_source (s : String)
    (h1 : s ≠ "mock") (h2 : s ≠ "hackernews") (h3 : s ≠ "youtube")
    (h4 : s ≠ "reddit") (h5 : s ≠ "googleTrends") (h6 : s ≠ "news")
    (h7 : s ≠ "naver") (h8 : s ≠ "interestKR") (h9 : s ≠ "storyKR") :
    (∀ hy hn, dispatchProviderV1 s hy hn =
      DispatchV1.mock ("unknown source(" ++ s ++ ") → mock")) ∧
    (∀ hy hn, dispatchProviderV2 s hy hn =
      Except.error ("unknown source: " ++ s)) ∧
    (∀ e : String, handlerFallbackV2 (Except.error e) none =
      Except.error { error := "provider_failed", message := e }) := by
  refine ⟨?_, ?_, fun e => rfl⟩
  · intro hy hn
    unfold dispatchProviderV1
    simp [h1, h2, h3, h4, h5, h6, h7]
  · intro hy hn
    unfold dispatchProviderV2
    simp [h2, h3, h4, h5, h6, h7, h8, h9]

/-- Witness for `dispatch_unknown_source` at source "foobar". -/
theorem dispatch_unknown_source_witness :
    dispatchProviderV1 "foobar" false false =
      DispatchV1.mock ("unknown source(" ++ "foobar" ++ ") → mock") ∧
    dispatchProviderV2 "foobar" true true =
      Except.error ("unknown source: " ++ "foobar") := by
  have h := dispatch_unknown_source "foobar" (by decide) (by decide) (by decide)
    (by decide) (by decide) (by decide) (by decide) (by decide) (by decide)
  exact ⟨h.1 false false, h.2.1 true true⟩

/-! ## C9: the q filter re-ranks in v1 but not in v2 -/

/-- **C9 (counterexample).** The v2 handler's q filter does not reassign
ranks: filtering ranks `[1, 2, 3]` down to two survivors leaves their ranks
`[1, 3]`, not consecutive `[1, 2]`. -/
theorem qfilterV2_rank_counterexample :
    (applyQFilterV2 "b"
        [⟨1, 0, "abc", 0, [], [], []⟩, ⟨2, 0, "zzz", 0, [], [], []⟩,
         ⟨3, 0, "abcd", 0, [], [], []⟩]).map
      InterestItem.rank = [1, 3] ∧
    ([1, 3] : List ℕ) ≠ [1, 2] :=
  ⟨by decide, by decide⟩

theorem assignRanks_map_term (i : ℕ) (l : List ItemV1) :
    (assignRanks i l).map ItemV1.term = l.map ItemV1.term := by
  induction l generalizing i with
  | nil => rfl
  | cons x xs ih => simp [assignRanks, ih]

theorem assignRanks_map_score (i : ℕ) (l : List ItemV1) :
    (assignRanks i l).map ItemV1.score = l.map ItemV1.score := by
  induction l generalizing i with
  | nil => rfl
  | cons x xs ih => simp [assignRanks, ih]

theorem assignRanks_map_rank (i : ℕ) (l : List ItemV1) :
    (assignRanks i l).map ItemV1.rank = List.range' (i + 1) l.length := by
  induction l generalizing i with
  | nil => rfl
  | cons x xs ih => simp [assignRanks, ih, List.range'_succ]

/-- **C9 (amended).** With a non-empty `q`, both handlers filter the item
list to the terms containing `q` case-insensitively and leave every
surviving item's score unchanged; the v1 handler then reassigns consecutive
1-based ranks, while the v2 handler keeps the surviving items wholly
unchanged (original ranks included). -/
theorem qfilter_spec (q : String) (hq : q ≠ "")
    (itemsV1 : List ItemV1) (itemsV2 : List InterestItem) :
    (applyQFilterV1 q itemsV1).map ItemV1.term =
      ((itemsV1.filter fun x => qMatch q x.term).map ItemV1.term) ∧
    (applyQFilterV1 q itemsV1).map ItemV1.score =
      ((itemsV1.filter fun x => qMatch q x.term).map ItemV1.score) ∧
    (applyQFilterV1 q itemsV1).map ItemV1.rank =
      List.range' 1 (itemsV1.filter fun x => qMatch q x.term).length ∧
    applyQFilterV2 q itemsV2 = (itemsV2.filter fun x => qMatch q x.term) ∧
    (∀ x ∈ applyQFilterV2 q itemsV2, x ∈ itemsV2 ∧ qMatch q x.term = true) := by
  unfold applyQFilterV1 applyQFilterV2
  rw [if_neg hq, if_neg hq]
  refine ⟨assignRanks_map_term 0 _, assignRanks_map_score 0 _,
    assignRanks_map_rank 0 _, rfl, ?_⟩
  intro x hx
  obtain ⟨h1, h2⟩ := List.mem_filter.mp hx
  exact ⟨h1, h2⟩

/-- Witness for `qfilter_spec` at `q = "b"` and concrete item lists. -/
theorem qfilter_spec_witness :
    ("b" : String) ≠ "" ∧
    (applyQFilterV1 "b" [⟨"abc", [], 7, [], 1⟩]).map ItemV1.score =
      (([⟨"abc", [], 7, [], 1⟩] : List ItemV1).filter fun x => qMatch "b" x.term).map
        ItemV1.score := by
  have h := qfilter_spec "b" (by decide) [⟨"abc", [], 7, [], 1⟩] []
  exact ⟨by decide, h.2.1⟩

end TrendsJs
